import Mathlib

/-!
# go-client: a shallow embedding of the JSON REST client

The development follows the Go sources file by file:

* `errors.go`        : `ApiError`
* `hystrix.go`       : `HystrixConfig`, `NewHystrixConfig`
* `tlsconfig.go`     : `TLSOptions`, `NewTLSConfig`
* `roundtrippers.go` : the three middleware round-trippers
* `options.go`       : the `OptFunc` appliers
* `client.go`        : `Client`, its fluent setters, `Do`, `buildRequest`,
                       `getAPIPath`, `addHeaders`, `encodeBody`, `WrapRoundTripper`

Pointer receivers become explicit state passing: a method that mutates the
client returns the new client.  Go maps are association lists read by first
match.  Library calls that perform I/O or that depend on the caller's data
types (JSON coding, URL parsing, the HTTP round trip, the file system) are
fields of an environment record; pure string functions of `net/url` that the
client relies on (`URL.String`, `Values.Encode`) are written out.
-/

namespace GoClient

/-! ## Basic data -/

/-- Raw bytes (`[]byte`). -/
abbrev Bytes := List UInt8

/-- A Go `error` value produced by a library call; `msg` is what `Error()` returns. -/
structure Error where
  msg : String
deriving DecidableEq, Repr

/-- A run-time panic of the Go program. -/
structure Panic where
  msg : String
deriving DecidableEq, Repr

/-- Entries of a Go `map[string][]string`, read by first match. -/
abbrev StrMap := List (String × List String)

/-- Map read `m[key]` together with its presence flag. -/
def StrMap.get : StrMap → String → Option (List String)
  | [], _ => none
  | (k, v) :: m, key => if k = key then some v else StrMap.get m key

/-- Map write `m[key] = val`. -/
def StrMap.set : StrMap → String → List String → StrMap
  | [], key, val => [(key, val)]
  | (k, v) :: m, key, val =>
    if k = key then (key, val) :: m else (k, v) :: StrMap.set m key val

/-- The loop `for key, val := range src { dst[key] = val }`.  Entries are visited
from the last to the first, so that a list in which a key is repeated behaves as
the map its first matches denote; Go leaves the order of a map range unspecified
and, keys being unique there, the outcome does not depend on it. -/
def StrMap.assignAll (dst src : StrMap) : StrMap :=
  src.foldr (fun e acc => StrMap.set acc e.1 e.2) dst

/-- The type `http.Header`: `none` is the nil map, `some []` is `http.Header{}`. -/
abbrev Header := Option StrMap

/-- The type `url.Values`, nil-able like every Go map. -/
abbrev Values := Option StrMap

/-- Reading a possibly nil map: a nil map reads as an empty one. -/
def Header.get (h : Header) (key : String) : Option (List String) :=
  match h with
  | none => none
  | some m => m.get key

/-! ## errors.go -/

/-- The error returned for a response whose status is not 2xx/3xx. -/
structure ApiError where
  StatusCode : Int
  RespBody : Bytes
  Message : String
deriving DecidableEq, Repr

/-- What `Do` can return as its `error`: a library error passed on unchanged, or
an `ApiError` value. -/
inductive DoError where
  | plain (e : Error)
  | api (a : ApiError)
deriving DecidableEq, Repr

/-! ## hystrix.go -/

/-- The settings record `hystrix.CommandConfig`. -/
structure CommandConfig where
  Timeout : Int
  MaxConcurrentRequests : Int
  RequestVolumeThreshold : Int
  SleepWindow : Int
  ErrorPercentThreshold : Int
deriving DecidableEq, Repr

structure HystrixConfig where
  CommandConfig : CommandConfig
  Name : String
deriving DecidableEq, Repr

def NewHystrixConfig (commandName : String) (config : CommandConfig) : HystrixConfig :=
  { Name := commandName, CommandConfig := config }

/-! ## tlsconfig.go -/

structure TLSOptions where
  CaCertFile : String
  InsecureSkipVerify : Bool
deriving DecidableEq, Repr

/-- A parsed certificate, identified by its DER bytes. -/
structure Cert where
  der : Bytes
deriving DecidableEq, Repr

/-- The fields of `tls.Config` the client sets; `RootCAs = none` is the nil pool
(the host's root set is used). -/
structure TLSConfig where
  InsecureSkipVerify : Bool
  RootCAs : Option (List Cert)
deriving DecidableEq, Repr

/-- The operating-system and `crypto/x509` calls of `NewTLSConfig`. -/
structure Sys where
  /-- The call `ioutil.ReadFile`. -/
  readFile : String → Except Error Bytes
  /-- The certificates `AppendCertsFromPEM` manages to parse out of PEM data. -/
  parsePEMCerts : Bytes → List Cert

/-- The method `(*x509.CertPool).AppendCertsFromPEM`: appends every certificate found
and reports whether at least one was parsed. -/
def AppendCertsFromPEM (sys : Sys) (pool : List Cert) (pem : Bytes) : List Cert × Bool :=
  (pool ++ sys.parsePEMCerts pem, !(sys.parsePEMCerts pem).isEmpty)

def NewTLSConfig (sys : Sys) (conf : TLSOptions) : Except Error TLSConfig :=
  let tlsConfig : TLSConfig := { InsecureSkipVerify := conf.InsecureSkipVerify, RootCAs := none }
  if conf.CaCertFile = "" ∨ conf.InsecureSkipVerify = true then
    .ok tlsConfig
  else
    let caCertPool : List Cert := []
    match sys.readFile conf.CaCertFile with
    | .error err => .error err
    | .ok pem =>
      match AppendCertsFromPEM sys caCertPool pem with
      | (_, false) =>
        .error ⟨"failed to append cert from PEM file : " ++ conf.CaCertFile⟩
      | (pool, true) => .ok { tlsConfig with RootCAs := some pool }

/-! ## roundtrippers.go -/

/-- The transport at the bottom of the chain. -/
inductive BaseTransport where
  /-- A nil `http.RoundTripper`. -/
  | nil
  /-- A `*http.Transport` and its `TLSClientConfig`. -/
  | httpTransport (TLSClientConfig : Option TLSConfig)
  /-- Any other implementation, known by its type name. -/
  | other (typeName : String)
deriving DecidableEq, Repr

/-- The round-trippers of the package, each holding its `next`. -/
inductive RoundTripper where
  | base (t : BaseTransport)
  | debugRoundTripper (next : RoundTripper)
  | hystrixRoundTripper (cmdName : String) (next : RoundTripper)
  | newRelicRoundTripper (next : RoundTripper)
deriving DecidableEq, Repr

def newDebugRoundTripper (next : RoundTripper) : RoundTripper :=
  .debugRoundTripper next

def newHystrixRoundTripper (cmdName : String) (next : RoundTripper) : RoundTripper :=
  .hystrixRoundTripper cmdName next

def newRelicTransport (next : RoundTripper) : RoundTripper :=
  .newRelicRoundTripper next

/-- The kinds of unit a chain is made of. -/
inductive Layer where
  | breaker
  | diagnosticLogging
  | tracing
  | baseTransport
deriving DecidableEq, Repr

/-- The units of a chain from the outermost to the innermost. -/
def RoundTripper.outerToInner : RoundTripper → List Layer
  | .base _ => [.baseTransport]
  | .debugRoundTripper next => .diagnosticLogging :: next.outerToInner
  | .hystrixRoundTripper _ next => .breaker :: next.outerToInner
  | .newRelicRoundTripper next => .tracing :: next.outerToInner

/-- The unit a request meets first. -/
def RoundTripper.outermost : RoundTripper → Layer
  | .base _ => .baseTransport
  | .debugRoundTripper _ => .diagnosticLogging
  | .hystrixRoundTripper _ _ => .breaker
  | .newRelicRoundTripper _ => .tracing

/-- The unit whose `next` is the base transport, if the chain has a wrapper at all. -/
def RoundTripper.wrapsBase : RoundTripper → Option Layer
  | .base _ => none
  | .debugRoundTripper (.base _) => some .diagnosticLogging
  | .hystrixRoundTripper _ (.base _) => some .breaker
  | .newRelicRoundTripper (.base _) => some .tracing
  | .debugRoundTripper next => next.wrapsBase
  | .hystrixRoundTripper _ next => next.wrapsBase
  | .newRelicRoundTripper next => next.wrapsBase

/-! ## client.go: the client record -/

/-- The fields of `http.Client` the package touches (`Timeout` in nanoseconds). -/
structure HTTPClient where
  Timeout : Int
  Transport : RoundTripper
deriving DecidableEq, Repr

def defaultClientTimeOut : Int := 1000000000 * 5

def defaultHTTPClient : HTTPClient :=
  { Timeout := defaultClientTimeOut, Transport := .base (.httpTransport none) }

structure Client where
  baseURL : String
  path : String
  method : String
  httpClient : HTTPClient
  headers : Header
  query : String
  hystrixConfig : Option HystrixConfig
  debug : Bool
  enableNewRelic : Bool
deriving DecidableEq, Repr

def WrapRoundTripper (c : Client) : RoundTripper :=
  let rt := c.httpClient.Transport
  let rt := match c.hystrixConfig with
    | some conf => newHystrixRoundTripper conf.Name rt
    | none => rt
  let rt := if c.debug then newDebugRoundTripper rt else rt
  let rt := if c.enableNewRelic then newRelicTransport rt else rt
  rt

/-! ## options.go -/

/-- An option applier: it changes the client under construction or fails. -/
abbrev OptFunc := Client → Except Error Client

def WithHTTPClient (httpClient : HTTPClient) : OptFunc :=
  fun client => .ok { client with httpClient := httpClient }

/-- The text `%T` prints for a base transport. -/
def BaseTransport.typeName : BaseTransport → String
  | .nil => "<nil>"
  | .httpTransport _ => "*http.Transport"
  | .other n => n

/-- The text `%T` prints for a round-tripper. -/
def RoundTripper.typeName : RoundTripper → String
  | .base t => t.typeName
  | .debugRoundTripper _ => "*goclient.debugRoundTripper"
  | .hystrixRoundTripper _ _ => "*goclient.hystrixRoundTripper"
  | .newRelicRoundTripper _ => "*goclient.newRelicRoundTripper"

def WithTLSConfig (sys : Sys) (tlsOpts : TLSOptions) : OptFunc :=
  fun client =>
    match NewTLSConfig sys tlsOpts with
    | .error err => .error err
    | .ok tlsConfig =>
      match client.httpClient.Transport with
      | .base (.httpTransport _) =>
        .ok { client with
              httpClient := { client.httpClient with
                              Transport := .base (.httpTransport (some tlsConfig)) } }
      | rt => .error ⟨"failed to apply tls config on " ++ rt.typeName⟩

def WithHTTPTimeout (timeout : Int) : OptFunc :=
  fun client => .ok { client with httpClient := { client.httpClient with Timeout := timeout } }

def WithCustomHeaders (headers : Header) : OptFunc :=
  fun client => .ok { client with headers := headers }

/-- The call `hystrix.ConfigureCommand` registers the settings in the breaker
library and leaves the client alone; only the assignment is kept. -/
def WithHystrix (conf : HystrixConfig) : OptFunc :=
  fun client => .ok { client with hystrixConfig := some conf }

def WithDebug : OptFunc :=
  fun client => .ok { client with debug := true }

def WithNewRelicEnable : OptFunc :=
  fun client => .ok { client with enableNewRelic := true }

/-- The loop over the option appliers in `NewWithOpts`: the first failure ends it. -/
def applyOpts : List OptFunc → Client → Except Error Client
  | [], client => .ok client
  | f :: fs, client =>
    match f client with
    | .error err => .error err
    | .ok client => applyOpts fs client

def NewWithOpts (baseURL : String) (optFuncs : List OptFunc) : Except Error Client :=
  let client : Client :=
    { baseURL := baseURL, path := "", method := "", httpClient := defaultHTTPClient,
      headers := some [], query := "", hystrixConfig := none, debug := false,
      enableNewRelic := false }
  match applyOpts optFuncs client with
  | .error err => .error err
  | .ok client =>
    .ok { client with
          httpClient := { client.httpClient with Transport := WrapRoundTripper client } }

/-! ## The string functions of `net/url` and `strings` the client relies on -/

/-- The function `strings.HasPrefix` on character lists. -/
def startsWith : List Char → List Char → Bool
  | _, [] => true
  | [], _ :: _ => false
  | c :: s, p :: ps => c == p && startsWith s ps

/-- The function `strings.Contains`. -/
def containsAt : List Char → List Char → Bool
  | [], sub => startsWith [] sub
  | c :: s, sub => startsWith (c :: s) sub || containsAt s sub

/-- The function `strings.Contains` on strings. -/
def strContains (s sub : String) : Bool := containsAt s.data sub.data

/-- The escaping modes of `net/url` that the rendered address goes through. -/
inductive encoding where
  | encodePath
  | encodeHost
  | encodeQueryComponent
deriving DecidableEq, Repr

/-- The function `shouldEscape` of `net/url`, on an ASCII character. -/
def shouldEscape (c : Char) (mode : encoding) : Bool :=
  if c.isAlphanum then false
  else if mode = .encodeHost ∧
      c ∈ ['!', '$', '&', Char.ofNat 39, '(', ')', '*', '+', ',', ';', '=', ':', '[', ']',
           '<', '>', Char.ofNat 34] then false
  else if c ∈ ['-', '_', '.', '~'] then false
  else if c ∈ ['$', '&', '+', ',', '/', ':', ';', '=', '?', '@'] then
    match mode with
    | .encodePath => c == '?'
    | .encodeQueryComponent => true
    | .encodeHost => true
  else true

/-- The digit table `upperhex`. -/
def upperhex (n : Nat) : Char :=
  ['0', '1', '2', '3', '4', '5', '6', '7', '8', '9', 'A', 'B', 'C', 'D', 'E', 'F'].getD n '0'

/-- The three characters `%XX` written for the byte `b`. -/
def pctEncode (b : Nat) : List Char := ['%', upperhex (b / 16), upperhex (b % 16)]

/-- What `escape` writes for one character of the string: Go walks the UTF-8 bytes, and
every byte of a non-ASCII character is escaped. -/
def escapeChar (mode : encoding) (c : Char) : List Char :=
  if c.toNat < 128 then
    if c = ' ' ∧ mode = .encodeQueryComponent then ['+']
    else if shouldEscape c mode then pctEncode c.toNat
    else [c]
  else (String.utf8EncodeChar c).flatMap (fun b => pctEncode b.toNat)

/-- The function `escape` of `net/url`. -/
def escape (s : String) (mode : encoding) : String :=
  ⟨s.data.flatMap (escapeChar mode)⟩

/-- The function `url.QueryEscape`. -/
def QueryEscape (s : String) : String := escape s .encodeQueryComponent

/-- The order of Go strings: lexicographic on the bytes, which for UTF-8 text is the
lexicographic order on the code points. -/
def lessChars : List Char → List Char → Bool
  | _, [] => false
  | [], _ :: _ => true
  | a :: s, b :: t => a.toNat < b.toNat || (a.toNat == b.toNat && lessChars s t)

/-- The comparison `a < b` of two Go strings. -/
def strLess (a b : String) : Bool := lessChars a.data b.data

/-- Insertion of a key into a sorted list without repetition. -/
def insertKey (k : String) : List String → List String
  | [] => [k]
  | x :: xs =>
    if strLess k x then k :: x :: xs else if k = x then x :: xs else x :: insertKey k xs

/-- The keys of a map in increasing order (`slices.Sort(keys)`). -/
def sortedKeys (m : StrMap) : List String :=
  m.foldr (fun e acc => insertKey e.1 acc) []

/-- The method `url.Values.Encode`: `key=value` pairs joined by `&`, keys sorted. -/
def Values.Encode (v : StrMap) : String :=
  if v.length = 0 then ""
  else
    (sortedKeys v).foldl
      (fun buf k =>
        let vs := (v.get k).getD []
        let keyEscaped := QueryEscape k
        vs.foldl
          (fun buf val =>
            (if buf.length > 0 then buf ++ "&" else buf) ++ keyEscaped ++ "=" ++ QueryEscape val)
          buf)
      ""

/-- The fields of `url.URL` the client reads or sets.  The remaining ones (`Opaque`,
`User`, `RawPath`, `OmitHost`, `ForceQuery`, `Fragment`) are never read from the parsed
base address and have their zero value in the address the client renders. -/
structure URL where
  Scheme : String
  Host : String
  Path : String
  RawQuery : String
deriving DecidableEq, Repr

/-- The method `EscapedPath` for a URL whose `RawPath` is empty. -/
def URL.EscapedPath (u : URL) : String :=
  if u.Path = "*" then "*" else escape u.Path .encodePath

/-- The first segment of a path: what precedes its first slash. -/
def firstSegment : List Char → List Char
  | [] => []
  | c :: s => if c = '/' then [] else c :: firstSegment s

/-- The method `(*url.URL).String` for a URL that has only the four fields above. -/
def URL.String (u : URL) : String :=
  let buf := if u.Scheme ≠ "" then u.Scheme ++ ":" else ""
  let buf :=
    if u.Scheme ≠ "" ∨ u.Host ≠ "" then
      let buf := if u.Host ≠ "" ∨ u.Path ≠ "" then buf ++ "//" else buf
      if u.Host ≠ "" then buf ++ escape u.Host .encodeHost else buf
    else buf
  let path := u.EscapedPath
  let buf :=
    if path ≠ "" ∧ path.data.head? ≠ some '/' ∧ u.Host ≠ "" then buf ++ "/" else buf
  let buf :=
    if buf.length = 0 ∧ (firstSegment path.data).contains ':' then buf ++ "./" else buf
  let buf := buf ++ path
  if u.RawQuery ≠ "" then buf ++ "?" ++ u.RawQuery else buf

/-! ## Requests, responses and the library environment -/

/-- A `context.Context`, known by its identity. -/
structure Context where
  ident : Nat
deriving DecidableEq, Repr

/-- The value `context.Background()`. -/
def Context.Background : Context := ⟨0⟩

/-- The fields of `http.Request` the client fills in.  `URL` holds the address string
handed to `http.NewRequest`; `Header` is never nil, `NewRequest` allocates it. -/
structure Request where
  Method : String
  URL : String
  Header : StrMap
  Body : Option Bytes
  ctx : Context
deriving DecidableEq, Repr

def Request.WithContext (req : Request) (ctx : Context) : Request :=
  { req with ctx := ctx }

/-- The method `http.Header.Set` for a key that is already in canonical form, as
`Accept` and `Content-Type` are. -/
def HeaderSet (h : StrMap) (key value : String) : StrMap :=
  h.set key [value]

/-- A response body as the transport hands it over: the bytes it will deliver and,
if the stream breaks after them, the read error that takes the place of EOF. -/
structure BodyStream where
  content : Bytes
  failure : Option Error
deriving DecidableEq, Repr

/-- A response as `http.Client.Do` returns it. -/
structure Response where
  StatusCode : Int
  Body : BodyStream
deriving DecidableEq, Repr

/-- The state of `resp.Body` while `Do` runs. -/
structure BodyReader where
  /-- Bytes not read yet. -/
  rest : Bytes
  failure : Option Error
  /-- Bytes read so far. -/
  consumed : Bytes
  /-- A read has reached the end of the stream. -/
  sawEnd : Bool
  closed : Bool
deriving DecidableEq, Repr

/-- The body of a response nobody has read from yet. -/
def BodyStream.reader (b : BodyStream) : BodyReader :=
  { rest := b.content, failure := b.failure, consumed := [], sawEnd := false, closed := false }

/-- The call `ioutil.ReadAll`: everything up to the end of the stream, and the error
that ended it unless that was EOF. -/
def ReadAll (r : BodyReader) : Bytes × Option Error × BodyReader :=
  (r.rest, r.failure, { r with rest := [], consumed := r.consumed ++ r.rest, sawEnd := true })

/-- The method `Close` of the body. -/
def BodyReader.Close (r : BodyReader) : BodyReader :=
  { r with closed := true }

/-- A body is drained when a read has reached its end and nothing is left unread. -/
def BodyReader.drained (r : BodyReader) : Bool :=
  r.rest.isEmpty && r.sawEnd

/-- The library calls of `client.go`, for request bodies of type `B`, success targets of
type `S` and failure targets of type `F`. -/
structure Env (B S F : Type) where
  /-- The call `json.Marshal`. -/
  jsonMarshal : B → Except Error Bytes
  /-- The call `json.NewDecoder(body).Decode(target)`: the error, the target as the
  decoder left it, and the body as far as the decoder read it. -/
  jsonDecode : BodyReader → S → Option Error × S × BodyReader
  /-- The call `json.Unmarshal(data, target)`: the error and the target afterwards. -/
  jsonUnmarshal : Bytes → F → Option Error × F
  /-- The call `url.Parse`. -/
  urlParse : String → Except Error URL
  /-- The checks of `http.NewRequest` on the method and the address. -/
  newRequestCheck : String → String → Option Error
  /-- The call `(*http.Client).Do`, which runs the round-tripper chain. -/
  httpDo : HTTPClient → Request → Except Error Response

/-- The call `http.NewRequest`: an empty method means GET, the header map is freshly
allocated, the context is the background one. -/
def NewRequest {B S F : Type} (env : Env B S F) (method url : String) (body : Option Bytes) :
    Except Error Request :=
  let method := if method = "" then "GET" else method
  match env.newRequestCheck method url with
  | some err => .error err
  | none =>
    .ok { Method := method, URL := url, Header := [], Body := body, ctx := Context.Background }

/-! ## client.go: the fluent setters -/

def Client.Verb (c : Client) (method : String) : Client :=
  { c with method := method }

def Client.Path (c : Client) (path : String) : Client :=
  { c with path := path }

def Client.Query (c : Client) (q : Values) : Client :=
  match q with
  | some v => { c with query := Values.Encode v }
  | none => c

/-- Ranging over a nil `header` runs no iteration; a write into a nil `c.headers`
panics. -/
def Client.Headers (c : Client) (header : Header) : Except Panic Client :=
  match header with
  | none => .ok c
  | some [] => .ok c
  | some (e :: es) =>
    match c.headers with
    | none => .error ⟨"assignment to entry in nil map"⟩
    | some m => .ok { c with headers := some (m.assignAll (e :: es)) }

def Client.reset (c : Client) : Client :=
  { c with query := "", method := "", headers := some [], path := "" }

/-- The fluent chain `c.Verb(method).Path(path).Query(q)` written before `Do`. -/
def Client.prepare (c : Client) (method path : String) (q : Values) : Client :=
  ((c.Verb method).Path path).Query q

/-! ## client.go: building the request -/

def encodeBody {B S F : Type} (env : Env B S F) (reqBody : Option B) :
    Except Error (Option Bytes) :=
  match reqBody with
  | none => .ok none
  | some v =>
    match env.jsonMarshal v with
    | .error err => .error err
    | .ok body => .ok (some body)

/-- The parameter `query` is not read: the method takes the query from the client. -/
def Client.getAPIPath {B S F : Type} (env : Env B S F) (c : Client) (path : String)
    (_query : String) : Except Error String × Client :=
  let c := if !strContains c.baseURL "://" then { c with baseURL := "http://" ++ c.baseURL } else c
  match env.urlParse c.baseURL with
  | .error err => (.error err, c)
  | .ok baseUri =>
    (.ok (URL.String { Scheme := baseUri.Scheme, Host := baseUri.Host, Path := path,
                       RawQuery := c.query }), c)

def Client.addHeaders (_c : Client) (req : Request) (headers : Header) : Request :=
  let req :=
    match headers with
    | some hs => { req with Header := req.Header.assignAll hs }
    | none => req
  let req := { req with Header := HeaderSet req.Header "Accept" "application/json; charset=utf-8" }
  { req with Header := HeaderSet req.Header "Content-Type" "application/json; charset=utf-8" }

def Client.buildRequest {B S F : Type} (env : Env B S F) (c : Client) (method path query : String)
    (headers : Header) (body : Option Bytes) : Except Error Request × Client :=
  match c.getAPIPath env path query with
  | (.error err, c) => (.error err, c)
  | (.ok urlPath, c) =>
    match NewRequest env method urlPath body with
    | .error err => (.error err, c)
    | .ok req => (.ok (c.addHeaders req headers), c)

/-! ## client.go: `Do` -/

/-- Everything observable once `Do` has returned. -/
structure DoResult (S F : Type) where
  /-- The returned `error`; `none` is nil. -/
  err : Option DoError
  /-- The client afterwards. -/
  client : Client
  /-- The success target afterwards (`none`: the caller passed nil). -/
  successV : Option S
  /-- The failure target afterwards (`none`: the caller passed nil). -/
  failureV : Option F
  /-- The request handed to `c.httpClient.Do`, if the call got that far. -/
  sent : Option Request
  /-- The response body at the return, if a response was received. -/
  body : Option BodyReader

/-- The statements of `Do` that follow `defer resp.Body.Close()`: the error, the two
targets and the body, before the deferred `Close` runs. -/
def handleResponse {B S F : Type} (env : Env B S F) (resp : Response)
    (successV : Option S) (failureV : Option F) :
    Option DoError × Option S × Option F × BodyReader :=
  let body := resp.Body.reader
  if resp.StatusCode ≥ 200 ∧ resp.StatusCode < 400 then
    match successV with
    | none => (none, none, failureV, body)
    | some s =>
      match env.jsonDecode body s with
      | (err, s, body) => (err.map DoError.plain, some s, failureV, body)
  else
    match ReadAll body with
    | (_, some err, body) => (some (.plain err), successV, failureV, body)
    | (respBody, none, body) =>
      match failureV with
      | some f =>
        match env.jsonUnmarshal respBody f with
        | (some err, f) =>
          (some (.api ⟨resp.StatusCode, respBody, err.msg⟩), successV, some f, body)
        | (none, f) =>
          (some (.api { StatusCode := resp.StatusCode, RespBody := respBody, Message := "" }),
            successV, some f, body)
      | none =>
        (some (.api { StatusCode := resp.StatusCode, RespBody := respBody, Message := "" }),
          successV, none, body)

/-- The statements of `Do`, without the deferred `c.reset()`. -/
def Client.doSteps {B S F : Type} (env : Env B S F) (c : Client) (ctx : Context)
    (reqBody : Option B) (successV : Option S) (failureV : Option F) : DoResult S F :=
  match encodeBody env reqBody with
  | .error err =>
    { err := some (.plain err), client := c, successV := successV, failureV := failureV,
      sent := none, body := none }
  | .ok body =>
    match c.buildRequest env c.method c.path c.query c.headers body with
    | (.error err, c) =>
      { err := some (.plain err), client := c, successV := successV, failureV := failureV,
        sent := none, body := none }
    | (.ok req, c) =>
      let req := req.WithContext ctx
      match env.httpDo c.httpClient req with
      | .error err =>
        { err := some (.plain err), client := c, successV := successV, failureV := failureV,
          sent := some req, body := none }
      | .ok resp =>
        match handleResponse env resp successV failureV with
        | (err, successV, failureV, body) =>
          { err := err, client := c, successV := successV, failureV := failureV,
            sent := some req, body := some body.Close }

/-- The method `Do`: its statements, then the deferred `c.reset()`. -/
def Client.Do {B S F : Type} (env : Env B S F) (c : Client) (ctx : Context)
    (reqBody : Option B) (successV : Option S) (failureV : Option F) : DoResult S F :=
  let r := c.doSteps env ctx reqBody successV failureV
  { r with client := r.client.reset }

/-- One exchange as a caller writes it: `c.Headers(h)`, then
`c.Verb(method).Path(path).Query(q).Do(ctx, reqBody, successV, failureV)`. -/
def Client.exchange {B S F : Type} (env : Env B S F) (c : Client) (h : Header)
    (method path : String) (q : Values) (ctx : Context) (reqBody : Option B)
    (successV : Option S) (failureV : Option F) : Except Panic (DoResult S F) :=
  match c.Headers h with
  | .error p => .error p
  | .ok c => .ok ((c.prepare method path q).Do env ctx reqBody successV failureV)

/-- The response `c.httpClient.Do` hands back inside `Do`, when the body was encoded,
the request was built and the round trip succeeded; `none` when `Do` returned before. -/
def Client.received {B S F : Type} (env : Env B S F) (c : Client) (ctx : Context)
    (reqBody : Option B) : Option Response :=
  match encodeBody env reqBody with
  | .error _ => none
  | .ok body =>
    match c.buildRequest env c.method c.path c.query c.headers body with
    | (.error _, _) => none
    | (.ok req, c) =>
      match env.httpDo c.httpClient (req.WithContext ctx) with
      | .error _ => none
      | .ok resp => some resp

/-! ## A concrete environment

Used to run the definitions on concrete inputs.  Request bodies are raw JSON texts
(`json.RawMessage`), both targets are `*bool`. -/

/-- The UTF-8 bytes of a string. -/
def bytesOf (s : String) : Bytes := s.data.flatMap String.utf8EncodeChar

/-- Decoding a JSON text into a `bool`: only the two literals succeed. -/
def decodeBool (data : Bytes) (target : Bool) : Option Error × Bool :=
  if data = bytesOf "true" then (none, true)
  else if data = bytesOf "false" then (none, false)
  else (some ⟨"json: cannot unmarshal into Go value of type bool"⟩, target)

/-- The part of a string before the first occurrence of a character, and the part
after it (`strings.Cut` with a one-character separator). -/
def cutAt (sep : Char) : List Char → List Char × Option (List Char)
  | [] => ([], none)
  | c :: s =>
    if c = sep then ([], some s)
    else ((cutAt sep s).1.cons c, (cutAt sep s).2)

/-- What follows the last `@` of an authority, or all of it. -/
def afterLastAt (s : List Char) : List Char :=
  match cutAt '@' s.reverse with
  | (host, _) => host.reverse

/-- A stand-in for `url.Parse` on plain absolute addresses `scheme://host/path?query`:
it splits the address where `url.Parse` does and makes none of its validity checks. -/
def parsePlain (rawURL : String) : Except Error URL :=
  match cutAt ':' rawURL.data with
  | (_, none) => .error ⟨"parse: missing protocol scheme"⟩
  | (scheme, some rest) =>
    let (rest, query) := cutAt '?' rest
    if startsWith rest ['/', '/'] then
      let (authority, path) := cutAt '/' (rest.drop 2)
      .ok { Scheme := ⟨scheme⟩, Host := ⟨afterLastAt authority⟩,
            Path := match path with
              | some p => ⟨'/' :: p⟩
              | none => "",
            RawQuery := ⟨query.getD []⟩ }
    else .error ⟨"parse: address without authority"⟩

/-- An environment in which every round trip is answered with `resp`. -/
def sampleEnv (resp : Response) : Env Bytes Bool Bool where
  jsonMarshal := fun raw => .ok raw
  jsonDecode := fun body target =>
    match ReadAll body with
    | (_, some err, body) => (some err, target, body)
    | (data, none, body) => ((decodeBool data target).1, (decodeBool data target).2, body)
  jsonUnmarshal := decodeBool
  urlParse := parsePlain
  newRequestCheck := fun _ _ => none
  httpDo := fun _ _ => .ok resp

/-- The options `TestClient_Do` builds its client with. -/
def testOpts : List OptFunc :=
  [WithDebug, WithNewRelicEnable, WithHystrix (NewHystrixConfig "testcmd" ⟨0, 0, 0, 0, 0⟩)]

/-- A client as `NewWithOpts` leaves it when no option is given. -/
def plainClient (baseURL : String) : Client :=
  { baseURL := baseURL, path := "", method := "", httpClient := defaultHTTPClient,
    headers := some [], query := "", hystrixConfig := none, debug := false,
    enableNewRelic := false }

/-- An environment whose `json.Unmarshal` fails with an error whose text is empty, as
happens for a failure target whose `UnmarshalJSON` method returns such an error. -/
def silentDecodeEnv (resp : Response) : Env Bytes Bool Bool :=
  { sampleEnv resp with jsonUnmarshal := fun _ target => (some ⟨""⟩, target) }

/-- A file system without any file, in which no PEM data parses. -/
def emptySys : Sys where
  readFile := fun name => .error ⟨"open " ++ name ++ ": no such file or directory"⟩
  parsePEMCerts := fun _ => []

/-- A string of ASCII characters none of which `escape` rewrites in the given mode. -/
def plainIn (mode : encoding) (s : String) : Bool :=
  s.data.all (fun c => decide (c.toNat < 128) && !shouldEscape c mode)

/-! ## Lemmas on `Do` -/

/-- Once a response has been received, `Do` is determined by `handleResponse`; the
body is closed and the client is reset. -/
theorem Do_of_received {B S F : Type} (env : Env B S F) (c : Client) (ctx : Context)
    (reqBody : Option B) (successV : Option S) (failureV : Option F) (resp : Response)
    (h : c.received env ctx reqBody = some resp) :
    (c.Do env ctx reqBody successV failureV).err
        = (handleResponse env resp successV failureV).1 ∧
    (c.Do env ctx reqBody successV failureV).successV
        = (handleResponse env resp successV failureV).2.1 ∧
    (c.Do env ctx reqBody successV failureV).failureV
        = (handleResponse env resp successV failureV).2.2.1 ∧
    (c.Do env ctx reqBody successV failureV).body
        = some (handleResponse env resp successV failureV).2.2.2.Close := by
  unfold Client.received at h
  unfold Client.Do Client.doSteps
  cases henc : encodeBody env reqBody with
  | error e => simp [henc] at h
  | ok body =>
    simp only [henc] at h ⊢
    rcases hreq : c.buildRequest env c.method c.path c.query c.headers body with ⟨r, c1⟩
    simp only [hreq] at h ⊢
    cases r with
    | error e => simp at h
    | ok req =>
      simp only at h ⊢
      cases hresp : env.httpDo c1.httpClient (req.WithContext ctx) with
      | error e => simp [hresp] at h
      | ok resp1 =>
        simp only [hresp, Option.some.injEq] at h ⊢
        subst h
        exact ⟨rfl, rfl, rfl, rfl⟩

/-- After a response with a status outside `[200,400)` whose body could be read,
`handleResponse` has read the whole body. -/
theorem handleResponse_failure_body {B S F : Type} (env : Env B S F) (resp : Response)
    (successV : Option S) (failureV : Option F)
    (hstatus : ¬ (resp.StatusCode ≥ 200 ∧ resp.StatusCode < 400)) :
    (handleResponse env resp successV failureV).2.2.2
      = { rest := [], failure := resp.Body.failure, consumed := resp.Body.content,
          sawEnd := true, closed := false } := by
  unfold handleResponse
  simp only [hstatus, if_false, ReadAll, BodyStream.reader, List.nil_append]
  cases hf : resp.Body.failure with
  | some e => rfl
  | none =>
    cases failureV with
    | none => rfl
    | some f =>
      simp only []
      rcases hu : env.jsonUnmarshal resp.Body.content f with ⟨e, f1⟩
      cases e <;> rfl

/-- After a response with a status in `[200,400)` and with a success target,
`handleResponse` returns what the JSON decoder returns. -/
theorem handleResponse_success_target {B S F : Type} (env : Env B S F) (resp : Response)
    (s : S) (failureV : Option F)
    (hstatus : resp.StatusCode ≥ 200 ∧ resp.StatusCode < 400) :
    handleResponse env resp (some s) failureV
      = ((env.jsonDecode resp.Body.reader s).1.map DoError.plain,
         some (env.jsonDecode resp.Body.reader s).2.1, failureV,
         (env.jsonDecode resp.Body.reader s).2.2) := by
  unfold handleResponse
  simp only [hstatus, and_self, if_true]

/-- The request `Do` hands to the HTTP client is the one `buildRequest` returned, bound
to the caller's context. -/
theorem Do_sent {B S F : Type} (env : Env B S F) (c : Client) (ctx : Context)
    (reqBody : Option B) (successV : Option S) (failureV : Option F) (req : Request)
    (h : (c.Do env ctx reqBody successV failureV).sent = some req) :
    ∃ body r c1, encodeBody env reqBody = .ok body ∧
      c.buildRequest env c.method c.path c.query c.headers body = (.ok r, c1) ∧
      req = r.WithContext ctx := by
  unfold Client.Do Client.doSteps at h
  cases henc : encodeBody env reqBody with
  | error e => simp [henc] at h
  | ok body =>
    simp only [henc] at h
    rcases hreq : c.buildRequest env c.method c.path c.query c.headers body with ⟨r, c1⟩
    simp only [hreq] at h
    cases r with
    | error e => simp at h
    | ok r =>
      refine ⟨body, r, c1, rfl, hreq, ?_⟩
      simp only at h
      cases hresp : env.httpDo c1.httpClient (r.WithContext ctx) with
      | error e =>
        simp only [hresp, Option.some.injEq] at h
        exact h.symm
      | ok resp =>
        simp only [hresp, Option.some.injEq] at h
        exact h.symm

/-- Putting `http://` in front of an address makes it contain `://`. -/
theorem strContains_http (b : String) : strContains ("http://" ++ b) "://" = true := by
  obtain ⟨cs⟩ := b
  show containsAt ("http://".data ++ cs) "://".data = true
  simp [containsAt, startsWith]

/-- The client `getAPIPath` leaves behind differs from the one it started from in the
base address only, which has gained its `http://` if it lacked a scheme separator. -/
theorem getAPIPath_client {B S F : Type} (env : Env B S F) (c : Client) (path query : String) :
    (c.getAPIPath env path query).2
      = { c with baseURL :=
            if strContains c.baseURL "://" then c.baseURL else "http://" ++ c.baseURL } := by
  unfold Client.getAPIPath
  cases hb : strContains c.baseURL "://" <;>
    simp only [Bool.not_true, Bool.not_false, if_true, if_false, Bool.false_eq_true] <;>
    cases env.urlParse _ <;> simp [hb]

/-- Replacing the base address by one that is parsed in the same way changes nothing
in what `getAPIPath` returns. -/
theorem getAPIPath_congr {B S F : Type} (env : Env B S F) (c : Client) (b : String)
    (path query : String)
    (hb : (if strContains b "://" then b else "http://" ++ b)
        = (if strContains c.baseURL "://" then c.baseURL else "http://" ++ c.baseURL)) :
    Client.getAPIPath env { c with baseURL := b } path query = c.getAPIPath env path query := by
  unfold Client.getAPIPath
  cases h2 : strContains b "://" <;> cases h3 : strContains c.baseURL "://" <;>
    simp only [h2, h3, if_true, if_false, Bool.false_eq_true] at hb <;>
    simp [h2, h3, hb]

/-- The client `buildRequest` leaves behind is the one `getAPIPath` left. -/
theorem buildRequest_client {B S F : Type} (env : Env B S F) (c : Client)
    (method path query : String) (headers : Header) (body : Option Bytes) :
    (c.buildRequest env method path query headers body).2
      = (c.getAPIPath env path query).2 := by
  unfold Client.buildRequest
  rcases c.getAPIPath env path query with ⟨r, c1⟩
  cases r with
  | error e => rfl
  | ok urlPath =>
    simp only
    cases NewRequest env method urlPath body <;> rfl

/-- The only field of the client the statements of `Do` can change is the base
address, by putting `http://` in front of it. -/
theorem doSteps_client {B S F : Type} (env : Env B S F) (c : Client) (ctx : Context)
    (reqBody : Option B) (successV : Option S) (failureV : Option F) :
    (c.doSteps env ctx reqBody successV failureV).client = c ∨
    (c.doSteps env ctx reqBody successV failureV).client
      = { c with baseURL :=
            if strContains c.baseURL "://" then c.baseURL else "http://" ++ c.baseURL } := by
  unfold Client.doSteps
  cases henc : encodeBody env reqBody with
  | error e => exact Or.inl rfl
  | ok body =>
    right
    have hc := buildRequest_client env c c.method c.path c.query c.headers body
    rw [getAPIPath_client] at hc
    rcases hreq : c.buildRequest env c.method c.path c.query c.headers body with ⟨r, c1⟩
    rw [hreq] at hc
    simp only at hc
    subst hc
    simp only [hreq]
    cases r with
    | error e => rfl
    | ok req =>
      simp only
      cases env.httpDo _ (req.WithContext ctx) <;> rfl

/-- Two clients that differ in the base address only, and whose base addresses are
parsed in the same way, go through `Do` with the same outcome. -/
theorem Do_congr_base {B S F : Type} (env : Env B S F) (c : Client) (b : String)
    (ctx : Context) (reqBody : Option B) (successV : Option S) (failureV : Option F)
    (hb : (if strContains b "://" then b else "http://" ++ b)
        = (if strContains c.baseURL "://" then c.baseURL else "http://" ++ c.baseURL)) :
    (Client.Do env { c with baseURL := b } ctx reqBody successV failureV).err
      = (c.Do env ctx reqBody successV failureV).err ∧
    (Client.Do env { c with baseURL := b } ctx reqBody successV failureV).sent
      = (c.Do env ctx reqBody successV failureV).sent ∧
    (Client.Do env { c with baseURL := b } ctx reqBody successV failureV).successV
      = (c.Do env ctx reqBody successV failureV).successV ∧
    (Client.Do env { c with baseURL := b } ctx reqBody successV failureV).failureV
      = (c.Do env ctx reqBody successV failureV).failureV ∧
    (Client.Do env { c with baseURL := b } ctx reqBody successV failureV).body
      = (c.Do env ctx reqBody successV failureV).body := by
  have hreq : ∀ body, Client.buildRequest env { c with baseURL := b } c.method c.path c.query
      c.headers body = c.buildRequest env c.method c.path c.query c.headers body := by
    intro body
    unfold Client.buildRequest
    rw [getAPIPath_congr env c b c.path c.query hb]
  unfold Client.Do Client.doSteps
  cases henc : encodeBody env reqBody with
  | error e => exact ⟨rfl, rfl, rfl, rfl, rfl⟩
  | ok body =>
    simp only [hreq body, and_self]

/-- An exchange started from a client in the state `reset` leaves it in does not
depend on which of two base addresses that are parsed in the same way the client
holds; `Headers` cannot panic there. -/
theorem exchange_after_reset {B S F : Type} (env : Env B S F) (c : Client) (b : String)
    (h : Header) (method path : String) (q : Values) (ctx : Context) (reqBody : Option B)
    (successV : Option S) (failureV : Option F)
    (hb : (if strContains b "://" then b else "http://" ++ b)
        = (if strContains c.baseURL "://" then c.baseURL else "http://" ++ c.baseURL)) :
    ∃ r1 r2 : DoResult S F,
      Client.exchange env { c.reset with baseURL := b } h method path q ctx reqBody
          successV failureV = .ok r1 ∧
      c.reset.exchange env h method path q ctx reqBody successV failureV = .ok r2 ∧
      r1.err = r2.err ∧ r1.sent = r2.sent ∧ r1.successV = r2.successV ∧
      r1.failureV = r2.failureV ∧ r1.body = r2.body := by
  have key : ∀ x : Client, x.baseURL = c.baseURL →
      ∃ r1 r2 : DoResult S F,
        Except.ok (Client.Do env (Client.prepare { x with baseURL := b } method path q) ctx
          reqBody successV failureV) = (Except.ok r1 : Except Panic (DoResult S F)) ∧
        Except.ok ((x.prepare method path q).Do env ctx reqBody successV failureV)
          = (Except.ok r2 : Except Panic (DoResult S F)) ∧
        r1.err = r2.err ∧ r1.sent = r2.sent ∧ r1.successV = r2.successV ∧
        r1.failureV = r2.failureV ∧ r1.body = r2.body := by
    intro x hx
    have hp : Client.prepare { x with baseURL := b } method path q
        = { x.prepare method path q with baseURL := b } := by
      cases q <;> rfl
    have hbase : (x.prepare method path q).baseURL = c.baseURL := by
      rw [← hx]
      cases q <;> rfl
    rw [hp]
    exact ⟨_, _, rfl, rfl,
      Do_congr_base env (x.prepare method path q) b ctx reqBody successV failureV
        (by rw [hbase]; exact hb)⟩
  cases h with
  | none => exact key c.reset rfl
  | some hs =>
    cases hs with
    | nil => exact key c.reset rfl
    | cons e es =>
      exact key { c.reset with headers := some (StrMap.assignAll [] (e :: es)) } rfl

/-! ## Lemmas on maps and on the headers of the built request -/

theorem StrMap.get_set (m : StrMap) (key : String) (val : List String) (k : String) :
    (m.set key val).get k = if key = k then some val else m.get k := by
  induction m with
  | nil => simp [StrMap.set, StrMap.get]
  | cons e m ih =>
    obtain ⟨k0, v0⟩ := e
    by_cases h0 : k0 = key
    · subst h0
      by_cases hk : k0 = k <;> simp [StrMap.set, StrMap.get, hk]
    · by_cases hk : k0 = k
      · subst hk
        have hne : ¬ key = k0 := fun hc => h0 hc.symm
        simp [StrMap.set, StrMap.get, h0, hne]
      · simp [StrMap.set, StrMap.get, h0, hk, ih]

theorem StrMap.get_assignAll (dst src : StrMap) (k : String) :
    (dst.assignAll src).get k
      = match src.get k with
        | some v => some v
        | none => dst.get k := by
  induction src with
  | nil => simp [StrMap.assignAll, StrMap.get]
  | cons e src ih =>
    obtain ⟨k0, v0⟩ := e
    have hstep : StrMap.assignAll dst ((k0, v0) :: src)
        = (StrMap.assignAll dst src).set k0 v0 := rfl
    rw [hstep, StrMap.get_set]
    by_cases hk : k0 = k
    · simp [StrMap.get, hk]
    · simp [StrMap.get, hk, ih]

/-- The header map of every request `buildRequest` returns: the entries of `headers`
written into an empty map, then the two forced entries. -/
theorem buildRequest_header {B S F : Type} (env : Env B S F) (c : Client)
    (method path query : String) (headers : Header) (body : Option Bytes)
    (req : Request) (c1 : Client)
    (h : c.buildRequest env method path query headers body = (.ok req, c1)) :
    req.Header
      = HeaderSet
          (HeaderSet (StrMap.assignAll [] (headers.getD []))
            "Accept" "application/json; charset=utf-8")
          "Content-Type" "application/json; charset=utf-8" := by
  unfold Client.buildRequest at h
  rcases hp : c.getAPIPath env path query with ⟨r, c2⟩
  rw [hp] at h
  cases r with
  | error e => simp at h
  | ok urlPath =>
    simp only at h
    unfold NewRequest at h
    cases hchk : env.newRequestCheck (if method = "" then "GET" else method) urlPath with
    | some e => simp [hchk] at h
    | none =>
      simp only [hchk, Prod.mk.injEq, Except.ok.injEq] at h
      rw [← h.1]
      cases headers <;> rfl

/-- Reading the header map of a request sent by `Do`: the two forced keys hold the
JSON media type, every other key holds what the client's pending headers hold. -/
theorem Do_sent_header {B S F : Type} (env : Env B S F) (c : Client) (ctx : Context)
    (reqBody : Option B) (successV : Option S) (failureV : Option F) (req : Request)
    (h : (c.Do env ctx reqBody successV failureV).sent = some req) (k : String) :
    req.Header.get k
      = if k = "Accept" ∨ k = "Content-Type" then some ["application/json; charset=utf-8"]
        else Header.get c.headers k := by
  obtain ⟨body, r, c1, -, hreq, hr⟩ := Do_sent env c ctx reqBody successV failureV req h
  have hh := buildRequest_header env c c.method c.path c.query c.headers body r c1 hreq
  subst hr
  simp only [Request.WithContext, hh, HeaderSet, StrMap.get_set, StrMap.get_assignAll]
  by_cases h1 : "Content-Type" = k
  · simp [h1.symm]
  · by_cases h2 : "Accept" = k
    · simp [h2.symm]
    · have h1' : ¬ k = "Content-Type" := fun hc => h1 hc.symm
      have h2' : ¬ k = "Accept" := fun hc => h2 hc.symm
      simp only [h1, h2, h1', h2', if_false, or_self]
      cases hc : c.headers with
      | none => simp [Header.get, StrMap.get]
      | some m =>
        simp only [Option.getD, Header.get]
        cases hm : m.get k <;> simp [StrMap.get]

/-- The setters `Verb`, `Path` and `Query` leave the pending headers alone. -/
theorem prepare_headers (c : Client) (method path : String) (q : Values) :
    (c.prepare method path q).headers = c.headers := by
  cases q <;> rfl

/-- When `WithCustomHeaders d` is the last option applied, the client under
construction holds `d` as its header map. -/
theorem applyOpts_WithCustomHeaders (pre : List OptFunc) (d : Header) (c c1 : Client)
    (h : applyOpts (pre ++ [WithCustomHeaders d]) c = .ok c1) : c1.headers = d := by
  induction pre generalizing c with
  | nil =>
    simp only [List.nil_append, applyOpts, WithCustomHeaders, Except.ok.injEq] at h
    rw [← h]
  | cons f fs ih =>
    simp only [List.cons_append, applyOpts] at h
    cases hf : f c with
    | error e => simp [hf] at h
    | ok c2 =>
      rw [hf] at h
      exact ih c2 h

/-- A client built by `NewWithOpts` with `WithCustomHeaders d` as its last option holds
`d` as its header map. -/
theorem NewWithOpts_WithCustomHeaders (baseURL : String) (pre : List OptFunc) (d : Header)
    (c : Client) (h : NewWithOpts baseURL (pre ++ [WithCustomHeaders d]) = .ok c) :
    c.headers = d := by
  unfold NewWithOpts at h
  simp only at h
  cases ha : applyOpts (pre ++ [WithCustomHeaders d])
      { baseURL := baseURL, path := "", method := "", httpClient := defaultHTTPClient,
        headers := some [], query := "", hystrixConfig := none, debug := false,
        enableNewRelic := false } with
  | error e => simp [ha] at h
  | ok c1 =>
    rw [ha] at h
    simp only [Except.ok.injEq] at h
    rw [← h]
    exact applyOpts_WithCustomHeaders pre d _ c1 ha

/-- The header-merge law for a default header map that is not nil: after
`WithCustomHeaders d` and `Headers h`, the request of the next exchange holds `h[k]`
for every key of `h`, `d[k]` for every key of `d` that is not in `h`, except that
`Accept` and `Content-Type` hold exactly the JSON media type, and no other key. -/
theorem Headers_merge_law {B S F : Type} (env : Env B S F) (baseURL : String)
    (pre : List OptFunc) (d : StrMap) (h : Header) (c0 : Client)
    (hnew : NewWithOpts baseURL (pre ++ [WithCustomHeaders (some d)]) = .ok c0) :
    ∃ c1 : Client, c0.Headers h = .ok c1 ∧
      ∀ (method path : String) (q : Values) (ctx : Context) (reqBody : Option B)
        (successV : Option S) (failureV : Option F) (req : Request),
        ((c1.prepare method path q).Do env ctx reqBody successV failureV).sent = some req →
        ∀ k : String,
          req.Header.get k
            = if k = "Accept" ∨ k = "Content-Type" then
                some ["application/json; charset=utf-8"]
              else
                match Header.get h k with
                | some v => some v
                | none => d.get k := by
  have hc0 := NewWithOpts_WithCustomHeaders baseURL pre (some d) c0 hnew
  have hkey : ∃ c1 : Client, c0.Headers h = .ok c1 ∧
      ∀ k, Header.get c1.headers k
        = match Header.get h k with
          | some v => some v
          | none => d.get k := by
    cases h with
    | none => exact ⟨c0, rfl, fun k => by rw [hc0]; rfl⟩
    | some hs =>
      cases hs with
      | nil => exact ⟨c0, rfl, fun k => by rw [hc0]; rfl⟩
      | cons e es =>
        refine ⟨{ c0 with headers := some (d.assignAll (e :: es)) }, ?_, fun k => ?_⟩
        · simp only [Client.Headers, hc0]
        · simp only [Header.get]
          exact StrMap.get_assignAll d (e :: es) k
  obtain ⟨c1, hh, hget⟩ := hkey
  refine ⟨c1, hh, ?_⟩
  intro method path q ctx reqBody successV failureV req hsent k
  rw [Do_sent_header env _ ctx reqBody successV failureV req hsent k,
    prepare_headers, hget k]

/-- The merge law at `d = A: 1` and `h = A: 2, B: 3`: the request holds `A: 2`, `B: 3`,
the two forced headers, and nothing under any other key such as `C`. -/
theorem Headers_merge_law_witness :
    ∃ c1 : Client, ∃ req : Request,
      Client.Headers { plainClient "example.com" with headers := some [("A", ["1"])] }
        (some [("A", ["2"]), ("B", ["3"])]) = .ok c1 ∧
      ((c1.prepare "GET" "/a" none).Do (sampleEnv ⟨200, ⟨[], none⟩⟩) ⟨1⟩
          none none none).sent = some req ∧
      req.Header.get "A" = some ["2"] ∧ req.Header.get "B" = some ["3"] ∧
      req.Header.get "Accept" = some ["application/json; charset=utf-8"] ∧
      req.Header.get "Content-Type" = some ["application/json; charset=utf-8"] ∧
      req.Header.get "C" = none := by
  obtain ⟨c1, h1, h2⟩ :=
    Headers_merge_law (sampleEnv ⟨200, ⟨[], none⟩⟩) "example.com" [] [("A", ["1"])]
      (some [("A", ["2"]), ("B", ["3"])])
      { plainClient "example.com" with headers := some [("A", ["1"])] } rfl
  have hc : (Except.ok { plainClient "example.com" with
      headers := some [("A", ["2"]), ("B", ["3"])] } : Except Panic Client) = .ok c1 := h1
  cases hc
  have hreq := h2 "GET" "/a" none ⟨1⟩ none none none _ rfl
  exact ⟨_, _, rfl, rfl, (hreq "A").trans (by decide), (hreq "B").trans (by decide),
    (hreq "Accept").trans (by decide), (hreq "Content-Type").trans (by decide),
    (hreq "C").trans (by decide)⟩

/-! ## Lemmas on the rendering of addresses -/

theorem length_ne_zero (s : String) (h : s ≠ "") : s.length ≠ 0 := by
  obtain ⟨cs⟩ := s
  cases cs with
  | nil => exact absurd rfl h
  | cons c cs => simp [String.length]

theorem shouldEscape_space (mode : encoding) : shouldEscape ' ' mode = true := by
  cases mode <;> decide

theorem escapeChar_plain (mode : encoding) (c : Char)
    (h : (decide (c.toNat < 128) && !shouldEscape c mode) = true) :
    escapeChar mode c = [c] := by
  simp only [Bool.and_eq_true, decide_eq_true_eq, Bool.not_eq_true'] at h
  obtain ⟨h1, h2⟩ := h
  have hsp : c ≠ ' ' := by
    intro hc
    rw [hc, shouldEscape_space] at h2
    cases h2
  simp [escapeChar, h1, h2, hsp]

theorem escape_plain (mode : encoding) (s : String) (h : plainIn mode s = true) :
    escape s mode = s := by
  obtain ⟨cs⟩ := s
  unfold escape
  congr 1
  simp only [plainIn] at h
  induction cs with
  | nil => rfl
  | cons c cs ih =>
    rw [List.all_cons, Bool.and_eq_true] at h
    have ih2 : cs.flatMap (escapeChar mode) = cs := ih h.2
    rw [List.flatMap_cons, escapeChar_plain mode c h.1, ih2]
    rfl

/-- The rendering of an address whose scheme and host are present and plain, for a
path that is empty or starts with a slash and needs no escaping: scheme, `://`, host,
path, and the query after a `?` when there is one. -/
theorem URL_String_plain (scheme host path query : String)
    (hs : scheme ≠ "") (hh : host ≠ "") (hhost : plainIn .encodeHost host = true)
    (hslash : path = "" ∨ path.data.head? = some '/')
    (hpath : plainIn .encodePath path = true) :
    URL.String { Scheme := scheme, Host := host, Path := path, RawQuery := query }
      = scheme ++ "://" ++ host ++ path ++ (if query = "" then "" else "?" ++ query) := by
  have hstar : path ≠ "*" := by
    intro hc
    subst hc
    rcases hslash with h | h
    · exact absurd h (by decide)
    · exact absurd h (by decide)
  have hhead : ¬ (path ≠ "" ∧ path.data.head? ≠ some '/' ∧ host ≠ "") := by
    rintro ⟨h1, h2, -⟩
    rcases hslash with h | h
    · exact h1 h
    · exact h2 h
  have hlen : ¬ ((scheme ++ ":" ++ "//" ++ host).length = 0
      ∧ (firstSegment path.data).contains ':' = true) := by
    rintro ⟨h1, -⟩
    rw [String.length_append] at h1
    exact length_ne_zero host hh (by omega)
  simp only [URL.String, URL.EscapedPath, hstar, if_false, escape_plain _ _ hhost,
    escape_plain _ _ hpath]
  rw [if_pos hs, if_pos (Or.inl hs), if_pos (Or.inl hh), if_pos hh, if_neg hhead, if_neg hlen]
  have hsep : scheme ++ ":" ++ "//" = scheme ++ "://" := by
    rw [String.append_assoc]
    rfl
  rw [hsep]
  by_cases hq : query = ""
  · rw [if_neg (not_not.mpr hq), if_pos hq, String.append_empty]
  · rw [if_pos hq, if_neg hq, String.append_assoc]

/-- The base address `getAPIPath` parses: the client's own when it contains `://`,
with `http://` put in front of it otherwise. -/
theorem getAPIPath_eq {B S F : Type} (env : Env B S F) (c : Client) (path query : String) :
    c.getAPIPath env path query
      = match env.urlParse
              (if strContains c.baseURL "://" then c.baseURL else "http://" ++ c.baseURL) with
        | .error err =>
          (.error err,
            { c with baseURL :=
                if strContains c.baseURL "://" then c.baseURL else "http://" ++ c.baseURL })
        | .ok baseUri =>
          (.ok (URL.String { Scheme := baseUri.Scheme, Host := baseUri.Host, Path := path,
                             RawQuery := c.query }),
            { c with baseURL :=
                if strContains c.baseURL "://" then c.baseURL else "http://" ++ c.baseURL }) := by
  unfold Client.getAPIPath
  cases hb : strContains c.baseURL "://" <;> simp

/-- The address of a request `buildRequest` returns is the one `getAPIPath` computed. -/
theorem buildRequest_URL {B S F : Type} (env : Env B S F) (c : Client)
    (method path query : String) (headers : Header) (body : Option Bytes)
    (req : Request) (c1 : Client)
    (h : c.buildRequest env method path query headers body = (.ok req, c1)) :
    (c.getAPIPath env path query).1 = .ok req.URL := by
  unfold Client.buildRequest at h
  rcases hp : c.getAPIPath env path query with ⟨r, c2⟩
  rw [hp] at h
  cases r with
  | error e => simp at h
  | ok urlPath =>
    simp only at h
    unfold NewRequest at h
    cases hchk : env.newRequestCheck (if method = "" then "GET" else method) urlPath with
    | some e => simp [hchk] at h
    | none =>
      simp only [hchk, Prod.mk.injEq, Except.ok.injEq] at h
      rw [← h.1]
      cases headers <;> rfl

/-! ## C1: the order of the chain -/

/-- C1, as stated, fails: for the client of `TestClient_Do` (breaker, diagnostic logging
and tracing all enabled) the chain is not breaker, logging, tracing, base; its
outermost unit is not the breaker and the unit holding the base transport is not the
tracing one. -/
theorem WrapRoundTripper_breaker_not_outermost :
    ∃ c : Client, NewWithOpts "example.com" testOpts = .ok c ∧
      c.hystrixConfig ≠ none ∧ c.debug = true ∧ c.enableNewRelic = true ∧
      c.httpClient.Transport.outerToInner
        ≠ [.breaker, .diagnosticLogging, .tracing, .baseTransport] ∧
      c.httpClient.Transport.outermost ≠ .breaker ∧
      c.httpClient.Transport.wrapsBase ≠ some .tracing :=
  ⟨_, rfl, by decide, rfl, rfl, by decide, by decide, by decide⟩

/-- C1, as amended: for a client with the breaker, diagnostic logging and tracing all
enabled, `WrapRoundTripper` returns, from the outside in, the tracing round-tripper,
the diagnostic-logging one, the breaker, then the transport it started from; so the
outermost unit is the tracing round-tripper and the unit that directly wraps a base
transport is the hystrix round-tripper. -/
theorem WrapRoundTripper_all_enabled (c : Client) (conf : HystrixConfig)
    (hh : c.hystrixConfig = some conf) (hd : c.debug = true) (hn : c.enableNewRelic = true) :
    WrapRoundTripper c
      = .newRelicRoundTripper
          (.debugRoundTripper (.hystrixRoundTripper conf.Name c.httpClient.Transport)) ∧
    (WrapRoundTripper c).outerToInner
      = [.tracing, .diagnosticLogging, .breaker] ++ c.httpClient.Transport.outerToInner ∧
    (WrapRoundTripper c).outermost = .tracing ∧
    ∀ t, c.httpClient.Transport = .base t →
      (WrapRoundTripper c).outerToInner
        = [.tracing, .diagnosticLogging, .breaker, .baseTransport] ∧
      (WrapRoundTripper c).wrapsBase = some .breaker := by
  have hw : WrapRoundTripper c
      = .newRelicRoundTripper
          (.debugRoundTripper (.hystrixRoundTripper conf.Name c.httpClient.Transport)) := by
    simp [WrapRoundTripper, hh, hd, hn, newRelicTransport, newDebugRoundTripper,
      newHystrixRoundTripper]
  refine ⟨hw, ?_, ?_, ?_⟩
  · rw [hw]; rfl
  · rw [hw]; rfl
  · intro t ht
    rw [hw, ht]
    exact ⟨rfl, rfl⟩

/-- The amended C1 at the client of `TestClient_Do` before wrapping. -/
theorem WrapRoundTripper_all_enabled_witness :
    WrapRoundTripper
        { plainClient "example.com" with
          hystrixConfig := some (NewHystrixConfig "testcmd" ⟨0, 0, 0, 0, 0⟩),
          debug := true, enableNewRelic := true }
      = .newRelicRoundTripper
          (.debugRoundTripper
            (.hystrixRoundTripper "testcmd" (.base (.httpTransport none)))) :=
  (WrapRoundTripper_all_enabled
    { plainClient "example.com" with
      hystrixConfig := some (NewHystrixConfig "testcmd" ⟨0, 0, 0, 0, 0⟩),
      debug := true, enableNewRelic := true }
    (NewHystrixConfig "testcmd" ⟨0, 0, 0, 0, 0⟩) rfl rfl rfl).1

/-! ## C2: the failure path without a failure target -/

/-- C2: when `Do` receives a response whose status is outside `[200,400)` and whose
body is read without error, and the failure target is nil, it returns an `ApiError`
whose `StatusCode` is the response status, whose `RespBody` is the whole response
body and whose `Message` is empty. -/
theorem Do_failure_nil_target {B S F : Type} (env : Env B S F) (c : Client) (ctx : Context)
    (reqBody : Option B) (successV : Option S) (resp : Response)
    (hrecv : c.received env ctx reqBody = some resp)
    (hstatus : ¬ (resp.StatusCode ≥ 200 ∧ resp.StatusCode < 400))
    (hread : resp.Body.failure = none) :
    (c.Do env ctx reqBody successV (none : Option F)).err
      = some (.api { StatusCode := resp.StatusCode, RespBody := resp.Body.content,
                     Message := "" }) := by
  rw [(Do_of_received env c ctx reqBody successV none resp hrecv).1]
  unfold handleResponse
  simp only [hstatus, if_false, ReadAll, BodyStream.reader, hread]

/-- C2 at a 404 response with body `oops`. -/
theorem Do_failure_nil_target_witness :
    ((plainClient "example.com").Do (sampleEnv ⟨404, ⟨bytesOf "oops", none⟩⟩) ⟨1⟩
        none none none).err
      = some (.api { StatusCode := 404, RespBody := bytesOf "oops", Message := "" }) :=
  Do_failure_nil_target (sampleEnv ⟨404, ⟨bytesOf "oops", none⟩⟩) (plainClient "example.com")
    ⟨1⟩ none none ⟨404, ⟨bytesOf "oops", none⟩⟩ rfl (by decide) rfl

/-! ## C3: the failure path with a failure target -/

/-- C3, as stated, fails on two inputs.  First, a 500 response whose body stream breaks
while it is read: with a failure target supplied, `Do` returns the read error and no
`ApiError`.  Second, a 500 response with body `7` and a failure target whose decoding
fails with an error of empty text: `Message` is empty although decoding failed. -/
theorem Do_failure_target_not_always_ApiError :
    ((plainClient "example.com").Do
        (sampleEnv ⟨500, ⟨bytesOf "true", some ⟨"unexpected EOF"⟩⟩⟩) ⟨1⟩
        none none (some false)).err = some (.plain ⟨"unexpected EOF"⟩) ∧
    ((silentDecodeEnv ⟨500, ⟨bytesOf "7", none⟩⟩).jsonUnmarshal (bytesOf "7") false).1 ≠ none ∧
    ((plainClient "example.com").Do (silentDecodeEnv ⟨500, ⟨bytesOf "7", none⟩⟩) ⟨1⟩
        none none (some false)).err
      = some (.api { StatusCode := 500, RespBody := bytesOf "7", Message := "" }) :=
  ⟨rfl, by decide, rfl⟩

/-- C3, as amended: when `Do` receives a response whose status is outside `[200,400)`
and whose body is read without error, and a failure target is supplied, it returns an
`ApiError` carrying the response status and the raw body, and the target is left as
`json.Unmarshal` left it.  `Message` is the decode error's text when decoding the raw
body into the target fails and is empty when it succeeds; hence, whenever decode errors
have a non-empty text, `Message` is empty if and only if decoding succeeded. -/
theorem Do_failure_with_target {B S F : Type} (env : Env B S F) (c : Client) (ctx : Context)
    (reqBody : Option B) (successV : Option S) (f : F) (resp : Response)
    (hrecv : c.received env ctx reqBody = some resp)
    (hstatus : ¬ (resp.StatusCode ≥ 200 ∧ resp.StatusCode < 400))
    (hread : resp.Body.failure = none) :
    ∃ a : ApiError,
      (c.Do env ctx reqBody successV (some f)).err = some (.api a) ∧
      a.StatusCode = resp.StatusCode ∧
      a.RespBody = resp.Body.content ∧
      (∀ e, (env.jsonUnmarshal resp.Body.content f).1 = some e → a.Message = e.msg) ∧
      ((env.jsonUnmarshal resp.Body.content f).1 = none → a.Message = "") ∧
      ((∀ e, (env.jsonUnmarshal resp.Body.content f).1 = some e → e.msg ≠ "") →
        (a.Message = "" ↔ (env.jsonUnmarshal resp.Body.content f).1 = none)) ∧
      (c.Do env ctx reqBody successV (some f)).failureV
        = some (env.jsonUnmarshal resp.Body.content f).2 := by
  obtain ⟨herr, -, hfail, -⟩ := Do_of_received env c ctx reqBody successV (some f) resp hrecv
  rw [herr, hfail]
  unfold handleResponse
  simp only [hstatus, if_false, ReadAll, BodyStream.reader, hread]
  rcases hu : env.jsonUnmarshal resp.Body.content f with ⟨e, f1⟩
  cases e with
  | none =>
    exact ⟨⟨resp.StatusCode, resp.Body.content, ""⟩, rfl, rfl, rfl,
      fun e he => by simp at he, fun _ => rfl, fun _ => ⟨fun _ => rfl, fun _ => rfl⟩, rfl⟩
  | some err =>
    refine ⟨⟨resp.StatusCode, resp.Body.content, err.msg⟩, rfl, rfl, rfl, ?_, ?_, ?_, rfl⟩
    · intro e he
      simp only [Option.some.injEq] at he
      rw [he]
    · intro he
      simp at he
    · intro hne
      constructor
      · intro hm
        exact absurd hm (hne err rfl)
      · intro he
        simp at he

/-- The amended C3 at a 404 response with body `oops` and a `bool` failure target:
decoding fails and its text is the `Message`. -/
theorem Do_failure_with_target_witness :
    ∃ a : ApiError,
      ((plainClient "example.com").Do (sampleEnv ⟨404, ⟨bytesOf "oops", none⟩⟩) ⟨1⟩
          none none (some false)).err = some (.api a) ∧
      a.StatusCode = 404 ∧ a.RespBody = bytesOf "oops" ∧
      a.Message = "json: cannot unmarshal into Go value of type bool" := by
  obtain ⟨a, h1, h2, h3, h4, -⟩ :=
    Do_failure_with_target (sampleEnv ⟨404, ⟨bytesOf "oops", none⟩⟩)
      (plainClient "example.com") ⟨1⟩ none none false ⟨404, ⟨bytesOf "oops", none⟩⟩
      rfl (by decide) rfl
  exact ⟨a, h1, h2, h3, h4 _ rfl⟩

/-! ## C4: the success path -/

/-- C4: when `Do` receives a response whose status is in `[200,400)`: with a nil
success target it returns no error, whatever the body; with a success target it
returns exactly what decoding the response body into the target returns, the target is
left as the decoder left it, and `Do` returns an error if and only if decoding
fails. -/
theorem Do_success {B S F : Type} (env : Env B S F) (c : Client) (ctx : Context)
    (reqBody : Option B) (failureV : Option F) (resp : Response)
    (hrecv : c.received env ctx reqBody = some resp)
    (hstatus : resp.StatusCode ≥ 200 ∧ resp.StatusCode < 400) :
    (c.Do env ctx reqBody (none : Option S) failureV).err = none ∧
    ∀ s : S,
      (c.Do env ctx reqBody (some s) failureV).err
        = (env.jsonDecode resp.Body.reader s).1.map DoError.plain ∧
      (c.Do env ctx reqBody (some s) failureV).successV
        = some (env.jsonDecode resp.Body.reader s).2.1 ∧
      ((c.Do env ctx reqBody (some s) failureV).err ≠ none
        ↔ (env.jsonDecode resp.Body.reader s).1 ≠ none) := by
  constructor
  · rw [(Do_of_received env c ctx reqBody none failureV resp hrecv).1]
    unfold handleResponse
    simp only [hstatus, and_self, if_true]
  · intro s
    obtain ⟨herr, hsucc, -, -⟩ := Do_of_received env c ctx reqBody (some s) failureV resp hrecv
    rw [herr, hsucc, handleResponse_success_target env resp s failureV hstatus]
    refine ⟨rfl, rfl, ?_⟩
    cases (env.jsonDecode resp.Body.reader s).1 <;> simp

/-- C4 at the scenario of the test: a 200 response without body and no success target
gives no error; with a `bool` target and body `true` the target becomes `true`. -/
theorem Do_success_witness :
    ((plainClient "example.com").Do (sampleEnv ⟨200, ⟨[], none⟩⟩) ⟨1⟩
        none none none).err = none ∧
    ((plainClient "example.com").Do (sampleEnv ⟨200, ⟨bytesOf "true", none⟩⟩) ⟨1⟩
        none (some false) none).successV = some true :=
  ⟨(Do_success (sampleEnv ⟨200, ⟨[], none⟩⟩) (plainClient "example.com") ⟨1⟩ none none
      ⟨200, ⟨[], none⟩⟩ rfl (by decide)).1,
   ((Do_success (sampleEnv ⟨200, ⟨bytesOf "true", none⟩⟩) (plainClient "example.com") ⟨1⟩
      none none ⟨200, ⟨bytesOf "true", none⟩⟩ rfl (by decide)).2 false).2.1⟩

/-! ## C5: the pending request is reset on every return -/

/-- C5: however `Do` returns (encode error, request-build error, transport error,
success path, failure path), afterwards the client's method, path and query are the
empty string and its header map is empty, so the client is in the state `reset`
leaves it in.  Hence a following exchange, whatever headers, method, path and query
it sets, runs exactly as it does from the client with its pending request reset: it
sends the same request and has the same outcome, and sees nothing of the previous
exchange. -/
theorem Do_resets {B S F : Type} (env : Env B S F) (c : Client) (ctx : Context)
    (reqBody : Option B) (successV : Option S) (failureV : Option F) :
    (c.Do env ctx reqBody successV failureV).client.method = "" ∧
    (c.Do env ctx reqBody successV failureV).client.path = "" ∧
    (c.Do env ctx reqBody successV failureV).client.query = "" ∧
    (c.Do env ctx reqBody successV failureV).client.headers = some [] ∧
    (c.Do env ctx reqBody successV failureV).client.reset
      = (c.Do env ctx reqBody successV failureV).client ∧
    ∀ (h : Header) (method path : String) (q : Values) (ctx2 : Context)
      (reqBody2 : Option B) (successV2 : Option S) (failureV2 : Option F),
      ∃ r1 r2 : DoResult S F,
        (c.Do env ctx reqBody successV failureV).client.exchange env h method path q ctx2
            reqBody2 successV2 failureV2 = .ok r1 ∧
        c.reset.exchange env h method path q ctx2 reqBody2 successV2 failureV2 = .ok r2 ∧
        r1.err = r2.err ∧ r1.sent = r2.sent ∧ r1.successV = r2.successV ∧
        r1.failureV = r2.failureV ∧ r1.body = r2.body := by
  refine ⟨rfl, rfl, rfl, rfl, rfl, ?_⟩
  intro h method path q ctx2 reqBody2 successV2 failureV2
  have hcl : (c.Do env ctx reqBody successV failureV).client
      = (c.doSteps env ctx reqBody successV failureV).client.reset := rfl
  rcases doSteps_client env c ctx reqBody successV failureV with hc | hc
  · rw [hcl, hc]
    exact exchange_after_reset env c c.baseURL h method path q ctx2 reqBody2 successV2
      failureV2 rfl
  · rw [hcl, hc]
    refine exchange_after_reset env c
      (if strContains c.baseURL "://" then c.baseURL else "http://" ++ c.baseURL)
      h method path q ctx2 reqBody2 successV2 failureV2 ?_
    cases hb : strContains c.baseURL "://"
    · simp [strContains_http]
    · simp [hb]

/-! ## C6: the address of the request -/

/-- C6: let the base address be parsed as `u`, after `http://` has been put in front
of it when it contains no `://`.  Then the address `getAPIPath` returns, and the
address of the request `Do` sends, is the rendering of the URL made of the scheme and
host of `u`, the pending path and the pending query string; no other part of `u` is
read, so two base addresses with the same scheme and host give the same address.
When scheme and host are present and plain and the path is plain and empty or rooted,
that rendering is scheme, `://`, host, path, and `?` with the query when there is
one. -/
theorem getAPIPath_target {B S F : Type} (env : Env B S F) (c : Client) (u : URL)
    (hparse : env.urlParse
        (if strContains c.baseURL "://" then c.baseURL else "http://" ++ c.baseURL) = .ok u) :
    (∀ path query : String,
      (c.getAPIPath env path query).1
        = .ok (URL.String { Scheme := u.Scheme, Host := u.Host, Path := path,
                            RawQuery := c.query })) ∧
    (∀ (ctx : Context) (reqBody : Option B) (successV : Option S) (failureV : Option F)
        (req : Request),
      (c.Do env ctx reqBody successV failureV).sent = some req →
      req.URL = URL.String { Scheme := u.Scheme, Host := u.Host, Path := c.path,
                             RawQuery := c.query }) ∧
    (u.Scheme ≠ "" → u.Host ≠ "" → plainIn .encodeHost u.Host = true →
      (c.path = "" ∨ c.path.data.head? = some '/') → plainIn .encodePath c.path = true →
      ∀ (ctx : Context) (reqBody : Option B) (successV : Option S) (failureV : Option F)
        (req : Request),
        (c.Do env ctx reqBody successV failureV).sent = some req →
        req.URL = u.Scheme ++ "://" ++ u.Host ++ c.path
                    ++ (if c.query = "" then "" else "?" ++ c.query)) ∧
    (∀ (c2 : Client) (u2 : URL),
      env.urlParse
          (if strContains c2.baseURL "://" then c2.baseURL else "http://" ++ c2.baseURL)
        = .ok u2 →
      u2.Scheme = u.Scheme → u2.Host = u.Host → c2.query = c.query →
      ∀ path query : String,
        (c2.getAPIPath env path query).1 = (c.getAPIPath env path query).1) := by
  have hget : ∀ path query : String,
      (c.getAPIPath env path query).1
        = .ok (URL.String { Scheme := u.Scheme, Host := u.Host, Path := path,
                            RawQuery := c.query }) := by
    intro path query
    rw [getAPIPath_eq, hparse]
  have hsent : ∀ (ctx : Context) (reqBody : Option B) (successV : Option S)
      (failureV : Option F) (req : Request),
      (c.Do env ctx reqBody successV failureV).sent = some req →
      req.URL = URL.String { Scheme := u.Scheme, Host := u.Host, Path := c.path,
                             RawQuery := c.query } := by
    intro ctx reqBody successV failureV req h
    obtain ⟨body, r, c1, -, hreq, hr⟩ := Do_sent env c ctx reqBody successV failureV req h
    have hurl := buildRequest_URL env c c.method c.path c.query c.headers body r c1 hreq
    rw [hget] at hurl
    subst hr
    simp only [Except.ok.injEq] at hurl
    exact hurl.symm
  refine ⟨hget, hsent, ?_, ?_⟩
  · intro hs hh hhost hslash hpath ctx reqBody successV failureV req h
    rw [hsent ctx reqBody successV failureV req h]
    exact URL_String_plain u.Scheme u.Host c.path c.query hs hh hhost hslash hpath
  · intro c2 u2 hparse2 hs hh hq path query
    rw [hget, getAPIPath_eq, hparse2]
    show Except.ok (URL.String ⟨u2.Scheme, u2.Host, path, c2.query⟩) = _
    rw [hs, hh, hq]

/-- C6 at the scenario of the test: base address `example.com`, path
`/api/v1/testreq`, query `key1: val1, key2: val2` set through `Query`; and the same
target for a base address that carries a path and a query of its own. -/
theorem getAPIPath_target_witness :
    (∃ req : Request,
      (((plainClient "example.com").prepare "GET" "/api/v1/testreq"
          (some [("key1", ["val1"]), ("key2", ["val2"])])).Do
          (sampleEnv ⟨200, ⟨[], none⟩⟩) ⟨1⟩ none none none).sent = some req ∧
      req.URL = "http://example.com/api/v1/testreq?key1=val1&key2=val2") ∧
    (∃ req : Request,
      (((plainClient "http://example.com/base/dir?token=1").prepare "GET" "/api/v1/testreq"
          (some [("key1", ["val1"]), ("key2", ["val2"])])).Do
          (sampleEnv ⟨200, ⟨[], none⟩⟩) ⟨1⟩ none none none).sent = some req ∧
      req.URL = "http://example.com/api/v1/testreq?key1=val1&key2=val2") :=
  ⟨⟨_, rfl,
     (getAPIPath_target (sampleEnv ⟨200, ⟨[], none⟩⟩)
        ((plainClient "example.com").prepare "GET" "/api/v1/testreq"
          (some [("key1", ["val1"]), ("key2", ["val2"])]))
        ⟨"http", "example.com", "", ""⟩ rfl).2.2.1
       (by decide) (by decide) (by decide) (by decide) (by decide) ⟨1⟩ none none none _ rfl⟩,
   ⟨_, rfl,
     (getAPIPath_target (sampleEnv ⟨200, ⟨[], none⟩⟩)
        ((plainClient "http://example.com/base/dir?token=1").prepare "GET" "/api/v1/testreq"
          (some [("key1", ["val1"]), ("key2", ["val2"])]))
        ⟨"http", "example.com", "/base/dir", "token=1"⟩ rfl).2.2.1
       (by decide) (by decide) (by decide) (by decide) (by decide) ⟨1⟩ none none none _ rfl⟩⟩

/-! ## C7: merging default and per-call headers -/

/-- C7 at the input on which the code departs from it: the default header map
installed with `WithCustomHeaders` is the nil map and `Headers` is then called with
`A: 2, B: 3`.  The assignment into the nil map panics, so no request is built. -/
theorem Headers_nil_defaults_panics :
    ∃ c : Client, NewWithOpts "example.com" [WithCustomHeaders none] = .ok c ∧
      c.Headers (some [("A", ["2"]), ("B", ["3"])])
        = .error ⟨"assignment to entry in nil map"⟩ :=
  ⟨_, rfl, rfl⟩

/-! ## C8: what `Do` does with the response body -/

/-- C8, as stated, fails: a 200 response with body `true` and no success target is
received, `Do` returns nil, and at that point nothing has been read from the body: it
is closed but not drained. -/
theorem Do_success_body_not_drained :
    ((plainClient "example.com").received (sampleEnv ⟨200, ⟨bytesOf "true", none⟩⟩) ⟨1⟩
        none) = some ⟨200, ⟨bytesOf "true", none⟩⟩ ∧
    ((plainClient "example.com").Do (sampleEnv ⟨200, ⟨bytesOf "true", none⟩⟩) ⟨1⟩
        none none none).err = none ∧
    ((plainClient "example.com").Do (sampleEnv ⟨200, ⟨bytesOf "true", none⟩⟩) ⟨1⟩
        none none none).body
      = some { rest := bytesOf "true", failure := none, consumed := [], sawEnd := false,
               closed := true } ∧
    (((plainClient "example.com").Do (sampleEnv ⟨200, ⟨bytesOf "true", none⟩⟩) ⟨1⟩
        none none none).body.map BodyReader.drained) = some false :=
  ⟨rfl, rfl, rfl, rfl⟩

/-- C8, as amended: for every response received by `Do` the body is closed by the time
`Do` returns, on every path.  On the failure path the body has been read to its end.
On the success path with no success target nothing has been read from it, and with a
success target it has been read as far as the JSON decoder read it. -/
theorem Do_body_closed {B S F : Type} (env : Env B S F) (c : Client) (ctx : Context)
    (reqBody : Option B) (successV : Option S) (failureV : Option F) (resp : Response)
    (hrecv : c.received env ctx reqBody = some resp) :
    ∃ body : BodyReader,
      (c.Do env ctx reqBody successV failureV).body = some body ∧
      body.closed = true ∧
      (¬ (resp.StatusCode ≥ 200 ∧ resp.StatusCode < 400) →
        body.drained = true ∧ body.consumed = resp.Body.content) ∧
      (resp.StatusCode ≥ 200 ∧ resp.StatusCode < 400 → successV = none →
        body.consumed = [] ∧ body.rest = resp.Body.content) ∧
      (resp.StatusCode ≥ 200 ∧ resp.StatusCode < 400 → ∀ s, successV = some s →
        body = (env.jsonDecode resp.Body.reader s).2.2.Close) := by
  refine ⟨_, (Do_of_received env c ctx reqBody successV failureV resp hrecv).2.2.2, rfl,
    ?_, ?_, ?_⟩
  · intro hstatus
    rw [handleResponse_failure_body env resp successV failureV hstatus]
    exact ⟨rfl, rfl⟩
  · intro hstatus hs
    subst hs
    unfold handleResponse
    simp only [hstatus, and_self, if_true]
    exact ⟨rfl, rfl⟩
  · intro hstatus s hs
    subst hs
    rw [handleResponse_success_target env resp s failureV hstatus]

/-- The amended C8 at a 404 response with body `oops`: the body ends up closed and read
to its end. -/
theorem Do_body_closed_witness :
    ∃ body : BodyReader,
      ((plainClient "example.com").Do (sampleEnv ⟨404, ⟨bytesOf "oops", none⟩⟩) ⟨1⟩
          none none (none : Option Bool)).body = some body ∧
      body.closed = true ∧ body.drained = true ∧ body.consumed = bytesOf "oops" := by
  obtain ⟨body, h1, h2, h3, -⟩ :=
    Do_body_closed (sampleEnv ⟨404, ⟨bytesOf "oops", none⟩⟩) (plainClient "example.com") ⟨1⟩
      none none (none : Option Bool) ⟨404, ⟨bytesOf "oops", none⟩⟩ rfl
  exact ⟨body, h1, h2, h3 (by decide)⟩

/-! ## C9: the TLS configuration -/

/-- C9: `NewTLSConfig`.  If `InsecureSkipVerify` is set or `CaCertFile` is empty, the
result is, without error and whatever the file system holds, a configuration with that
flag and no root pool of its own.  Otherwise an error is returned, and no
configuration, exactly when reading the file fails or no certificate can be parsed
from its contents; a read error is passed on as it is; on success the root pool holds
the certificates parsed from the file and verification is not skipped. -/
theorem NewTLSConfig_spec (sys : Sys) (conf : TLSOptions) :
    ((conf.InsecureSkipVerify = true ∨ conf.CaCertFile = "") →
      NewTLSConfig sys conf
        = .ok { InsecureSkipVerify := conf.InsecureSkipVerify, RootCAs := none }) ∧
    (¬ (conf.InsecureSkipVerify = true ∨ conf.CaCertFile = "") →
      ((∃ err, NewTLSConfig sys conf = .error err) ↔
        ((∃ err, sys.readFile conf.CaCertFile = .error err) ∨
          ∃ pem, sys.readFile conf.CaCertFile = .ok pem ∧ sys.parsePEMCerts pem = [])) ∧
      (∀ err, sys.readFile conf.CaCertFile = .error err →
        NewTLSConfig sys conf = .error err) ∧
      (∀ pem, sys.readFile conf.CaCertFile = .ok pem → sys.parsePEMCerts pem ≠ [] →
        NewTLSConfig sys conf
          = .ok { InsecureSkipVerify := false, RootCAs := some (sys.parsePEMCerts pem) })) := by
  constructor
  · intro h
    have h1 : conf.CaCertFile = "" ∨ conf.InsecureSkipVerify = true := h.symm
    simp only [NewTLSConfig, h1, if_true]
  · intro h
    have h1 : ¬ (conf.CaCertFile = "" ∨ conf.InsecureSkipVerify = true) := fun hc => h hc.symm
    have hflag : conf.InsecureSkipVerify = false := by
      cases hb : conf.InsecureSkipVerify with
      | false => rfl
      | true => exact absurd (Or.inl hb) h
    cases hr : sys.readFile conf.CaCertFile with
    | error e =>
      have hval : NewTLSConfig sys conf = .error e := by
        simp only [NewTLSConfig, h1, if_false, hr]
      rw [hval]
      refine ⟨⟨fun _ => Or.inl ⟨e, rfl⟩, fun _ => ⟨e, rfl⟩⟩, ?_, ?_⟩
      · intro err herr
        cases herr
        rfl
      · intro pem hpem
        cases hpem
    | ok pem =>
      cases hp : sys.parsePEMCerts pem with
      | nil =>
        have hval : NewTLSConfig sys conf
            = .error ⟨"failed to append cert from PEM file : " ++ conf.CaCertFile⟩ := by
          simp only [NewTLSConfig, h1, if_false, hr, AppendCertsFromPEM, hp]
          rfl
        rw [hval]
        refine ⟨⟨fun _ => Or.inr ⟨pem, rfl, hp⟩, fun _ => ⟨_, rfl⟩⟩, ?_, ?_⟩
        · intro err herr
          cases herr
        · intro pem1 hpem hne
          cases hpem
          exact absurd hp hne
      | cons cert certs =>
        have hval : NewTLSConfig sys conf
            = .ok { InsecureSkipVerify := false, RootCAs := some (cert :: certs) } := by
          have hfile : conf.CaCertFile ≠ "" := fun hc => h (Or.inr hc)
          simp [NewTLSConfig, hr, AppendCertsFromPEM, hp, hflag, hfile]
        rw [hval]
        refine ⟨⟨?_, ?_⟩, ?_, ?_⟩
        · rintro ⟨err, herr⟩
          cases herr
        · rintro (⟨err, herr⟩ | ⟨pem1, hpem, hnil⟩)
          · cases herr
          · cases hpem
            rw [hp] at hnil
            cases hnil
        · intro err herr
          cases herr
        · intro pem1 hpem _
          cases hpem
          rw [hp]

/-- C9 at the two scenarios: with the insecure flag set a missing CA file is no error
and verification is skipped; with the flag unset it is a construction error. -/
theorem NewTLSConfig_spec_witness :
    NewTLSConfig emptySys { CaCertFile := "missing.pem", InsecureSkipVerify := true }
      = .ok { InsecureSkipVerify := true, RootCAs := none } ∧
    NewTLSConfig emptySys { CaCertFile := "missing.pem", InsecureSkipVerify := false }
      = .error ⟨"open missing.pem: no such file or directory"⟩ :=
  ⟨(NewTLSConfig_spec emptySys ⟨"missing.pem", true⟩).1 (Or.inl rfl),
   ((NewTLSConfig_spec emptySys ⟨"missing.pem", false⟩).2 (by decide)).2.1 _ rfl⟩

/-! ## C10: default headers last for one exchange -/

/-- C10: for a client built by `NewWithOpts` with `WithCustomHeaders d` (after any
other options), the request of the first exchange, issued without calling `Headers`,
carries the entries of `d` under every key other than the two forced ones; once that
call of `Do` has returned, on whichever path, a second exchange issued without calling
`Headers` sends a request whose header map holds `Accept` and `Content-Type` with the
JSON media type and nothing else, so none of the keys of `d`. -/
theorem default_headers_first_exchange_only {B S F : Type} (env : Env B S F)
    (baseURL : String) (pre : List OptFunc) (d : Header) (c0 : Client)
    (hnew : NewWithOpts baseURL (pre ++ [WithCustomHeaders d]) = .ok c0)
    (method1 path1 : String) (q1 : Values) (ctx1 : Context) (reqBody1 : Option B)
    (successV1 : Option S) (failureV1 : Option F)
    (method2 path2 : String) (q2 : Values) (ctx2 : Context) (reqBody2 : Option B)
    (successV2 : Option S) (failureV2 : Option F) :
    (∀ req1 : Request,
      ((c0.prepare method1 path1 q1).Do env ctx1 reqBody1 successV1 failureV1).sent
          = some req1 →
      ∀ k : String, k ≠ "Accept" → k ≠ "Content-Type" →
        req1.Header.get k = Header.get d k) ∧
    (∀ req2 : Request,
      ((Client.prepare
          ((c0.prepare method1 path1 q1).Do env ctx1 reqBody1 successV1 failureV1).client
          method2 path2 q2).Do env ctx2 reqBody2 successV2 failureV2).sent = some req2 →
      req2.Header
        = [("Accept", ["application/json; charset=utf-8"]),
           ("Content-Type", ["application/json; charset=utf-8"])] ∧
      ∀ k : String, k ≠ "Accept" → k ≠ "Content-Type" → req2.Header.get k = none) := by
  have hc0 := NewWithOpts_WithCustomHeaders baseURL pre d c0 hnew
  constructor
  · intro req1 hsent k hk1 hk2
    rw [Do_sent_header env _ ctx1 reqBody1 successV1 failureV1 req1 hsent k, prepare_headers,
      hc0]
    simp only [hk1, hk2, or_self, if_false]
  · intro req2 hsent
    have hq : (Client.prepare
        ((c0.prepare method1 path1 q1).Do env ctx1 reqBody1 successV1 failureV1).client
        method2 path2 q2).headers = some [] := by
      rw [prepare_headers]
      rfl
    constructor
    · obtain ⟨body, r, c1, -, hreq, hr⟩ :=
        Do_sent env _ ctx2 reqBody2 successV2 failureV2 req2 hsent
      have hh := buildRequest_header env _ _ _ _ _ body r c1 hreq
      rw [hq] at hh
      subst hr
      rw [Request.WithContext, hh]
      rfl
    · intro k hk1 hk2
      rw [Do_sent_header env _ ctx2 reqBody2 successV2 failureV2 req2 hsent k, hq]
      simp only [hk1, hk2, or_self, if_false]
      rfl

/-- C10 at default headers `X-Token: t`, installed after the options of the test: the
first request carries the token, the second request, sent after the first `Do` has
returned, has the two forced headers only. -/
theorem default_headers_first_exchange_only_witness :
    ∃ c0 : Client, ∃ req1 req2 : Request,
      NewWithOpts "example.com" (testOpts ++ [WithCustomHeaders (some [("X-Token", ["t"])])])
        = .ok c0 ∧
      ((c0.prepare "GET" "/a" none).Do (sampleEnv ⟨200, ⟨[], none⟩⟩) ⟨1⟩
          none none none).sent = some req1 ∧
      req1.Header.get "X-Token" = some ["t"] ∧
      ((Client.prepare
          ((c0.prepare "GET" "/a" none).Do (sampleEnv ⟨200, ⟨[], none⟩⟩) ⟨1⟩
            none none none).client "GET" "/b" none).Do
          (sampleEnv ⟨200, ⟨[], none⟩⟩) ⟨2⟩ none none none).sent = some req2 ∧
      req2.Header
        = [("Accept", ["application/json; charset=utf-8"]),
           ("Content-Type", ["application/json; charset=utf-8"])] :=
  ⟨_, _, _, rfl, rfl, by decide, rfl,
    ((default_headers_first_exchange_only (sampleEnv ⟨200, ⟨[], none⟩⟩) "example.com"
      testOpts (some [("X-Token", ["t"])]) _ rfl "GET" "/a" none ⟨1⟩ none none none
      "GET" "/b" none ⟨2⟩ none none none).2 _ rfl).1⟩

end GoClient
